import Mathlib

/-!
Verification of `cmd/bosun/database/error_data.go` (bosun error-data store).

The Go code talks to redis through four flat keys:
  * `failingAlerts`    — a set of alert names (SADD/SREM/SCARD/SMEMBERS/SISMEMBER)
  * `alertsWithErrors` — a set of alert names (SADD/SREM/SMEMBERS)
  * `errorEvents`      — a list of alert names, newest first (LPUSH/LLEN/LREM)
  * `errors:<name>`    — one list of JSON blobs per alert, newest first
                         (LPUSH/LPOP/LINDEX/LRANGE/DEL)

We embed that store state shallowly: sets become duplicate-free lists of
strings, the two list structures become Lean lists with the head as the
newest element, and the per-alert lists become a function from names to
lists of blobs.  Event payloads are opaque to this layer: the code only
passes them through `json.Marshal` / `json.Unmarshal`, so we parametrise
over an event type `E`, a blob type `B` and a marshalling pair.

Each Go method is translated command by command.  The plain definitions
model executions in which every store command succeeds (the error returns
in the Go code are all straight propagation of command failures, so the
success path is exactly the sequence of commands); `markAlertFailureWith`
additionally models per-command failure for the one claim about a partial
failure inside `MarkAlertFailure`.  Decoding failures of `json.Unmarshal`
remain observable: `unmarshal` returns an `Option` and the read operations
return `Except`.
-/

namespace ErrorData

/-- The serialization adapter: `json.Marshal` / `json.Unmarshal` for the
event type of the caller.  `marshal` is total (encoding an event record does not
fail for the types this layer is used with); `unmarshal` may fail. -/
structure Codec (E B : Type) where
  marshal : E → B
  unmarshal : B → Option E

/-- The relevant slice of the redis keyspace, as laid out in the comment at
the top of `error_data.go`.  `failingAlerts` and `alertsWithErrors` are
redis sets (kept duplicate-free), `errorEvents` is the occurrence log
(newest first), and `errorLists name` is the list stored at key
`errors:<name>` (newest first; a missing key is the empty list, exactly how
redis treats absent list keys). -/
structure ErrState (B : Type) where
  failingAlerts : List String
  alertsWithErrors : List String
  errorEvents : List String
  errorLists : String → List B

/-- The state in which no key exists yet. -/
def ErrState.empty {B : Type} : ErrState B :=
  { failingAlerts := [], alertsWithErrors := [], errorEvents := [],
    errorLists := fun _ => [] }

/-- redis `SADD key name` on a set represented as a duplicate-free list. -/
def sadd (l : List String) (name : String) : List String :=
  if name ∈ l then l else name :: l

/-- redis `SREM key name`: removes the member if present. -/
def srem (l : List String) (name : String) : List String :=
  l.filter (fun m => m ≠ name)

/-- redis `LREM key 0 name`: count 0 removes every element equal to `name`. -/
def lremAll (l : List String) (name : String) : List String :=
  l.filter (fun m => m ≠ name)

/-- `MarkAlertSuccess(name)`: one `SREM failingAlerts name`. -/
def markAlertSuccess {B : Type} (s : ErrState B) (name : String) : ErrState B :=
  { s with failingAlerts := srem s.failingAlerts name }

/-- `MarkAlertFailure(name)`, success path: `SADD alertsWithErrors name`
then `SADD failingAlerts name`. -/
def markAlertFailure {B : Type} (s : ErrState B) (name : String) : ErrState B :=
  let s1 := { s with alertsWithErrors := sadd s.alertsWithErrors name }
  { s1 with failingAlerts := sadd s1.failingAlerts name }

/-- `MarkAlertFailure(name)` with per-command failure injection: `fail1`
(resp. `fail2`) says whether the first (resp. second) `SADD` fails.  A
failing command leaves the store unchanged and the method returns its error
at once; the Go code performs no rollback. -/
def markAlertFailureWith {B : Type} (s : ErrState B) (name : String)
    (fail1 fail2 : Bool) : Except Unit Unit × ErrState B :=
  if fail1 then (Except.error (), s)
  else
    let s1 := { s with alertsWithErrors := sadd s.alertsWithErrors name }
    if fail2 then (Except.error (), s1)
    else (Except.ok (), { s1 with failingAlerts := sadd s1.failingAlerts name })

/-- `GetFailingAlertCounts()`: `SCARD failingAlerts` and `LLEN errorEvents`,
returned as `(failing, events)`. -/
def getFailingAlertCounts {B : Type} (s : ErrState B) : Nat × Nat :=
  (s.failingAlerts.length, s.errorEvents.length)

/-- `GetFailingAlerts()`: `SMEMBERS failingAlerts` (the Go code turns the
member list into a `map[string]bool`; membership is what matters). -/
def getFailingAlerts {B : Type} (s : ErrState B) : List String :=
  s.failingAlerts

/-- `IsAlertFailing(name)`: `SISMEMBER failingAlerts name`. -/
def isAlertFailing {B : Type} (s : ErrState B) (name : String) : Bool :=
  decide (name ∈ s.failingAlerts)

/-- `GetLastEvent(name)`: `LINDEX errors:<name> 0`.  A nil reply (empty or
absent list) is `redis.ErrNil`, which the method turns into `(nil, nil)` —
the distinguished absent result, not an error.  Otherwise the head blob is
unmarshalled; a decoding failure is returned as an error. -/
def getLastEvent {E B : Type} (c : Codec E B) (s : ErrState B)
    (name : String) : Except Unit (Option E) :=
  match (s.errorLists name).head? with
  | none => Except.ok none
  | some b =>
    match c.unmarshal b with
    | none => Except.error ()
    | some ev => Except.ok (some ev)

/-- `AddEvent(name, event)`: marshal, `LPUSH errors:<name>`, then
`LPUSH errorEvents name`. -/
def addEvent {E B : Type} (c : Codec E B) (s : ErrState B) (name : String)
    (ev : E) : ErrState B :=
  let s1 := { s with errorLists :=
    fun k => if k = name then c.marshal ev :: s.errorLists k else s.errorLists k }
  { s1 with errorEvents := name :: s1.errorEvents }

/-- `UpdateLastEvent(name, event)`: marshal, `LPOP errors:<name>` (a nil
reply on an empty list is not an error, so the pop of a nonexistent head is
a no-op), `LPUSH errors:<name>` the new blob, then `LPUSH errorEvents
name`. -/
def updateLastEvent {E B : Type} (c : Codec E B) (s : ErrState B)
    (name : String) (ev : E) : ErrState B :=
  let s1 := { s with errorLists :=
    fun k => if k = name then c.marshal ev :: (s.errorLists k).tail
             else s.errorLists k }
  { s1 with errorEvents := name :: s1.errorEvents }

/-- Unmarshal every row of one per-alert history (`LRANGE key 0 -1`
followed by the decode loop in `GetFullErrorHistory`); the first decoding
failure aborts, preserving order otherwise. -/
def decodeRows {E B : Type} (c : Codec E B) : List B → Option (List E)
  | [] => some []
  | b :: rest =>
    match c.unmarshal b with
    | none => none
    | some ev =>
      match decodeRows c rest with
      | none => none
      | some l => some (ev :: l)

/-- The member loop of `GetFullErrorHistory`: for each name in `l`, read
the whole of its history under `g` and decode every row; the first store or
decode failure aborts. -/
def readHistories {E B : Type} (c : Codec E B) (g : String → List B) :
    List String → Option (List (String × List E))
  | [] => some []
  | a :: rest =>
    match decodeRows c (g a) with
    | none => none
    | some l =>
      match readHistories c g rest with
      | none => none
      | some res => some ((a, l) :: res)

/-- `GetFullErrorHistory()`: `SMEMBERS alertsWithErrors`; for each member
`a` read the whole of `errors:<a>` and decode every row; the result maps
each member to its decoded history, newest first.  The Go map is modelled
as an association list keyed in member order. -/
def getFullErrorHistory {E B : Type} (c : Codec E B) (s : ErrState B) :
    Except Unit (List (String × List E)) :=
  match readHistories c s.errorLists s.alertsWithErrors with
  | some res => Except.ok res
  | none => Except.error ()

/-- `ClearAlert(name)`: `SREM alertsWithErrors name`, `SREM failingAlerts
name`, `DEL errors:<name>`, `LREM errorEvents 0 name`. -/
def clearAlert {B : Type} (s : ErrState B) (name : String) : ErrState B :=
  { alertsWithErrors := srem s.alertsWithErrors name
    failingAlerts := srem s.failingAlerts name
    errorLists := fun k => if k = name then [] else s.errorLists k
    errorEvents := lremAll s.errorEvents name }

/-- The `DEL errors:<a>` loop of `ClearAll`: delete the per-alert history
of each name in `l`, in order. -/
def delHistories {B : Type} (acc : ErrState B) (l : List String) : ErrState B :=
  l.foldl
    (fun acc a =>
      { acc with errorLists := fun k => if k = a then [] else acc.errorLists k })
    acc

/-- `ClearAll()`: `SMEMBERS alertsWithErrors`; `DEL errors:<a>` for each
member `a`, in order; then `DEL alertsWithErrors`, `DEL failingAlerts`,
`DEL errorEvents`. -/
def clearAll {B : Type} (s : ErrState B) : ErrState B :=
  let s1 := delHistories s s.alertsWithErrors
  { s1 with alertsWithErrors := [], failingAlerts := [], errorEvents := [] }

/-- One store operation, for reasoning about sequences of completed calls.
Read-only methods are omitted: they do not change the state. -/
inductive Op (E : Type) where
  | markAlertSuccess (name : String)
  | markAlertFailure (name : String)
  | addEvent (name : String) (ev : E)
  | updateLastEvent (name : String) (ev : E)
  | clearAlert (name : String)
  | clearAll

/-- Apply one completed operation to the store. -/
def applyOp {E B : Type} (c : Codec E B) (s : ErrState B) : Op E → ErrState B
  | Op.markAlertSuccess name => markAlertSuccess s name
  | Op.markAlertFailure name => markAlertFailure s name
  | Op.addEvent name ev => addEvent c s name ev
  | Op.updateLastEvent name ev => updateLastEvent c s name ev
  | Op.clearAlert name => clearAlert s name
  | Op.clearAll => clearAll s

/-- Run a sequence of completed operations from a starting state. -/
def run {E B : Type} (c : Codec E B) (s : ErrState B) (ops : List (Op E)) :
    ErrState B :=
  ops.foldl (applyOp c) s

/-- One step of the history predicate "`MarkAlertFailure(n)` has occurred
and `n` has not been cleared since": `markAlertFailure n` sets it,
`clearAlert n` and `clearAll` reset it, every other operation leaves it. -/
def markedStep {E : Type} (n : String) (b : Bool) : Op E → Bool
  | Op.markAlertFailure m => if m = n then true else b
  | Op.clearAlert m => if m = n then false else b
  | Op.clearAll => false
  | _ => b

/-- `markedSinceClear n ops`: some `markAlertFailure n` occurs in `ops`
with no later `clearAlert n` or `clearAll`. -/
def markedSinceClear {E : Type} (n : String) (ops : List (Op E)) : Bool :=
  ops.foldl (markedStep n) false

/-- A concrete codec for instantiating the parametric theorems: events are
naturals, a blob is the successor of the event, and the blob `0` decodes to
nothing — so decoding can fail, yet round-trips succeed. -/
def natCodec : Codec Nat Nat :=
  { marshal := fun n => n + 1,
    unmarshal := fun b => if b = 0 then none else some (b - 1) }

/-- Concrete two-alert state used to instantiate the `ClearAlert` theorem:
both `"a"` and `"b"` are failing, have history and occurrence-log
entries. -/
def sC7 : ErrState Nat :=
  markAlertFailure
    (addEvent natCodec
      (markAlertFailure (addEvent natCodec ErrState.empty "a" 1) "a") "b" 2)
    "b"

/-- Concrete state used to instantiate the `ClearAll` theorem: `"b"` is the
only member of AlertsWithErrors, while `"a"` has history from `AddEvent`
alone. -/
def sC10 : ErrState Nat :=
  addEvent natCodec (markAlertFailure ErrState.empty "b") "a" 5

instance {ε α : Type} [DecidableEq ε] [DecidableEq α] :
    DecidableEq (Except ε α) := fun a b =>
  match a, b with
  | Except.ok x, Except.ok y =>
    if h : x = y then isTrue (by rw [h]) else isFalse (by simp [h])
  | Except.error x, Except.error y =>
    if h : x = y then isTrue (by rw [h]) else isFalse (by simp [h])
  | Except.ok _, Except.error _ => isFalse (by simp)
  | Except.error _, Except.ok _ => isFalse (by simp)

/-! ### Lemmas about the redis primitives -/

theorem mem_sadd {l : List String} {n m : String} :
    n ∈ sadd l m ↔ n = m ∨ n ∈ l := by
  unfold sadd
  split
  · rename_i h
    constructor
    · exact Or.inr
    · rintro (rfl | hn)
      · exact h
      · exact hn
  · simp [List.mem_cons]

theorem mem_srem {l : List String} {n m : String} :
    n ∈ srem l m ↔ n ∈ l ∧ n ≠ m := by
  simp [srem]

theorem mem_lremAll {l : List String} {n m : String} :
    n ∈ lremAll l m ↔ n ∈ l ∧ n ≠ m := by
  simp [lremAll]

theorem count_lremAll {l : List String} {n m : String} (h : m ≠ n) :
    (lremAll l n).count m = l.count m := by
  unfold lremAll
  induction l with
  | nil => rfl
  | cons a t ih =>
    by_cases ha : a = n
    · subst ha
      rw [List.count_cons_of_ne (fun e => h e) ]
      simpa [List.filter_cons] using ih
    · simp only [List.filter_cons, decide_eq_true_eq]
      rw [if_pos ha]
      by_cases hm : a = m
      · subst hm
        rw [List.count_cons_self, List.count_cons_self, ih]
      · rw [List.count_cons_of_ne (fun e => hm e.symm),
          List.count_cons_of_ne (fun e => hm e.symm), ih]

theorem delHistories_errorLists {B : Type} (l : List String) (acc : ErrState B)
    (n : String) :
    (delHistories acc l).errorLists n =
      if n ∈ l then [] else acc.errorLists n := by
  induction l generalizing acc with
  | nil => simp [delHistories]
  | cons a t ih =>
    simp only [delHistories, List.foldl_cons] at *
    rw [ih]
    by_cases h : n ∈ t
    · simp [h]
    · by_cases h2 : n = a <;> simp [h, h2, List.mem_cons]

theorem clearAll_errorLists {B : Type} (s : ErrState B) (n : String) :
    (clearAll s).errorLists n =
      if n ∈ s.alertsWithErrors then [] else s.errorLists n := by
  simp only [clearAll]
  exact delHistories_errorLists s.alertsWithErrors s n

theorem clearAll_alertsWithErrors {B : Type} (s : ErrState B) :
    (clearAll s).alertsWithErrors = [] := rfl

/-! ### Claim theorems -/

/-- C4: starting from an empty history for `n`, `AddEvent(n, e1)` followed
by `UpdateLastEvent(n, e2)` leaves `PerAlertHistory(n)` equal to the
single-element list holding (the serialization of) `e2`; the history length
is unchanged by the update (the head is replaced in place), while the
`totalEvents` component of `GetFailingAlertCounts()` grows by exactly 1
from the update alone. -/
theorem C4_update_coalesces {E B : Type} (c : Codec E B) (s : ErrState B)
    (n : String) (e1 e2 : E) (h : s.errorLists n = []) :
    (updateLastEvent c (addEvent c s n e1) n e2).errorLists n = [c.marshal e2] ∧
    ((updateLastEvent c (addEvent c s n e1) n e2).errorLists n).length
      = ((addEvent c s n e1).errorLists n).length ∧
    (getFailingAlertCounts (updateLastEvent c (addEvent c s n e1) n e2)).2
      = (getFailingAlertCounts (addEvent c s n e1)).2 + 1 := by
  simp [addEvent, updateLastEvent, getFailingAlertCounts, h]

/-- Witness for C4 at a concrete state and events. -/
theorem C4_witness :
    (ErrState.empty.errorLists "a" = ([] : List Nat)) ∧
    ((updateLastEvent natCodec (addEvent natCodec ErrState.empty "a" 5) "a" 7).errorLists "a"
      = [natCodec.marshal 7] ∧
    ((updateLastEvent natCodec (addEvent natCodec ErrState.empty "a" 5) "a" 7).errorLists "a").length
      = ((addEvent natCodec ErrState.empty "a" 5).errorLists "a").length ∧
    (getFailingAlertCounts (updateLastEvent natCodec (addEvent natCodec ErrState.empty "a" 5) "a" 7)).2
      = (getFailingAlertCounts (addEvent natCodec ErrState.empty "a" 5)).2 + 1) :=
  ⟨rfl, C4_update_coalesces natCodec ErrState.empty "a" 5 7 rfl⟩

/-- C5: starting from an empty history for `n`, `AddEvent(n, e1)` followed
by `AddEvent(n, e2)` makes `GetLastEvent(n)` return `e2` (the
marshal/unmarshal round-trip recovers the event) and leaves
`PerAlertHistory(n)` equal to `[e2, e1]` (serialized, newest first). -/
theorem C5_two_adds_newest_first {E B : Type} (c : Codec E B) (s : ErrState B)
    (n : String) (e1 e2 : E) (h0 : s.errorLists n = [])
    (h2 : c.unmarshal (c.marshal e2) = some e2) :
    getLastEvent c (addEvent c (addEvent c s n e1) n e2) n
      = Except.ok (some e2) ∧
    (addEvent c (addEvent c s n e1) n e2).errorLists n
      = [c.marshal e2, c.marshal e1] := by
  simp [addEvent, getLastEvent, h0, h2]

/-- Witness for C5 at a concrete state and events. -/
theorem C5_witness :
    (ErrState.empty.errorLists "a" = ([] : List Nat)) ∧
    natCodec.unmarshal (natCodec.marshal 7) = some 7 ∧
    (getLastEvent natCodec (addEvent natCodec (addEvent natCodec ErrState.empty "a" 5) "a" 7) "a"
      = Except.ok (some 7) ∧
    (addEvent natCodec (addEvent natCodec ErrState.empty "a" 5) "a" 7).errorLists "a"
      = [natCodec.marshal 7, natCodec.marshal 5]) :=
  ⟨rfl, by decide, C5_two_adds_newest_first natCodec ErrState.empty "a" 5 7 rfl (by decide)⟩

/-- C6: when `PerAlertHistory(n)` is empty (including a name never
written), `GetLastEvent(n)` returns the distinguished absent result with no
error: the nil reply of `LINDEX` is mapped to `(nil, nil)`, not reported as
a failure. -/
theorem C6_getLastEvent_empty_absent {E B : Type} (c : Codec E B)
    (s : ErrState B) (n : String) (h : s.errorLists n = []) :
    getLastEvent c s n = Except.ok none := by
  simp [getLastEvent, h]

/-- Witness for C6: `GetLastEvent("unknown")` on the empty store. -/
theorem C6_witness :
    (ErrState.empty.errorLists "unknown" = ([] : List Nat)) ∧
    getLastEvent natCodec ErrState.empty "unknown" = Except.ok none :=
  ⟨rfl, C6_getLastEvent_empty_absent natCodec ErrState.empty "unknown" rfl⟩

/-- C8: `MarkAlertFailure` issues `SADD alertsWithErrors` then `SADD
failingAlerts`.  If the first write succeeds and the second fails, the
method returns the error while the first write is retained: `n` is in
AlertsWithErrors, FailingAlerts is unchanged, and no rollback happens.
When both writes complete, the result is exactly the success path. -/
theorem C8_partial_failure_keeps_first_write {B : Type} (s : ErrState B)
    (n : String) :
    (markAlertFailureWith s n false true).1 = Except.error () ∧
    n ∈ (markAlertFailureWith s n false true).2.alertsWithErrors ∧
    (markAlertFailureWith s n false true).2.failingAlerts = s.failingAlerts ∧
    (markAlertFailureWith s n false true).2.errorLists = s.errorLists ∧
    (markAlertFailureWith s n false false).2 = markAlertFailure s n ∧
    (markAlertFailureWith s n false false).1 = Except.ok () := by
  refine ⟨rfl, ?_, rfl, rfl, rfl, rfl⟩
  simp [markAlertFailureWith, mem_sadd]

/-- Witness for C8 at a concrete state. -/
theorem C8_witness :
    (markAlertFailureWith (ErrState.empty (B := Nat)) "a" false true).1
      = Except.error () ∧
    "a" ∈ (markAlertFailureWith (ErrState.empty (B := Nat)) "a" false true).2.alertsWithErrors ∧
    (markAlertFailureWith (ErrState.empty (B := Nat)) "a" false true).2.failingAlerts
      = (ErrState.empty (B := Nat)).failingAlerts := by
  have h := C8_partial_failure_keeps_first_write (ErrState.empty (B := Nat)) "a"
  exact ⟨h.1, h.2.1, h.2.2.1⟩

/-- C9: `UpdateLastEvent(n, e)` on an empty (or absent) history succeeds:
the `LPOP` of the nonexistent head yields a nil reply, not an error, so the
pop is a no-op; the resulting history is the one-element list holding the
serialized `e` (length 0 grows to 1), and `n` is still prepended to the
OccurrenceLog. -/
theorem C9_update_on_empty_history {E B : Type} (c : Codec E B)
    (s : ErrState B) (n : String) (ev : E) (h : s.errorLists n = []) :
    (updateLastEvent c s n ev).errorLists n = [c.marshal ev] ∧
    ((updateLastEvent c s n ev).errorLists n).length = 1 ∧
    (updateLastEvent c s n ev).errorEvents = n :: s.errorEvents := by
  simp [updateLastEvent, h]

/-- Witness for C9 at a concrete state. -/
theorem C9_witness :
    (ErrState.empty.errorLists "a" = ([] : List Nat)) ∧
    ((updateLastEvent natCodec ErrState.empty "a" 7).errorLists "a"
      = [natCodec.marshal 7] ∧
    ((updateLastEvent natCodec ErrState.empty "a" 7).errorLists "a").length = 1 ∧
    (updateLastEvent natCodec ErrState.empty "a" 7).errorEvents
      = "a" :: (ErrState.empty (B := Nat)).errorEvents) :=
  ⟨rfl, C9_update_on_empty_history natCodec ErrState.empty "a" 7 rfl⟩

/-- C7: a completed `ClearAlert(n)` removes `n` from AlertsWithErrors and
from FailingAlerts, deletes `PerAlertHistory(n)` entirely, and removes
every occurrence of `n` from the OccurrenceLog; the data of every other alert:
history, set memberships, and number of occurrence-log entries are left
unchanged. -/
theorem C7_clearAlert_effects_and_frame {B : Type} (s : ErrState B)
    (n : String) :
    n ∉ (clearAlert s n).alertsWithErrors ∧
    n ∉ (clearAlert s n).failingAlerts ∧
    (clearAlert s n).errorLists n = [] ∧
    n ∉ (clearAlert s n).errorEvents ∧
    (∀ m : String, m ≠ n →
      (clearAlert s n).errorLists m = s.errorLists m ∧
      ((m ∈ (clearAlert s n).alertsWithErrors) ↔ m ∈ s.alertsWithErrors) ∧
      ((m ∈ (clearAlert s n).failingAlerts) ↔ m ∈ s.failingAlerts) ∧
      (clearAlert s n).errorEvents.count m = s.errorEvents.count m) := by
  refine ⟨?_, ?_, ?_, ?_, ?_⟩
  · simp [clearAlert, mem_srem]
  · simp [clearAlert, mem_srem]
  · simp [clearAlert]
  · simp [clearAlert, mem_lremAll]
  · intro m hm
    refine ⟨?_, ?_, ?_, ?_⟩
    · simp [clearAlert, hm]
    · simp [clearAlert, mem_srem, hm]
    · simp [clearAlert, mem_srem, hm]
    · exact count_lremAll hm

/-- Witness for C7 on a concrete two-alert state, with frame checked at the
other alert. -/
theorem C7_witness :
    "a" ∉ (clearAlert sC7 "a").alertsWithErrors ∧
    "a" ∉ (clearAlert sC7 "a").failingAlerts ∧
    (clearAlert sC7 "a").errorLists "a" = [] ∧
    "a" ∉ (clearAlert sC7 "a").errorEvents ∧
    ((clearAlert sC7 "a").errorLists "b" = sC7.errorLists "b" ∧
      (("b" ∈ (clearAlert sC7 "a").alertsWithErrors) ↔ "b" ∈ sC7.alertsWithErrors) ∧
      (("b" ∈ (clearAlert sC7 "a").failingAlerts) ↔ "b" ∈ sC7.failingAlerts) ∧
      (clearAlert sC7 "a").errorEvents.count "b" = sC7.errorEvents.count "b") := by
  have h := C7_clearAlert_effects_and_frame sC7 "a"
  exact ⟨h.1, h.2.1, h.2.2.1, h.2.2.2.1, h.2.2.2.2 "b" (by decide)⟩

/-- C10: a completed `ClearAll()` deletes only the histories of names
enumerated from AlertsWithErrors before dropping the three shared keys.
For a name `n` that has history (written by `AddEvent`) but is not a member
of AlertsWithErrors at that moment, `PerAlertHistory(n)` is untouched:
`GetLastEvent(n)` afterwards still returns the most recent event of `n`, even
though `GetFullErrorHistory()` now returns the empty map. -/
theorem C10_clearAll_skips_unlisted_history {E B : Type} (c : Codec E B)
    (s : ErrState B) (n : String) (e : E) (rest : List B)
    (hmem : n ∉ s.alertsWithErrors)
    (hhead : s.errorLists n = c.marshal e :: rest)
    (hdec : c.unmarshal (c.marshal e) = some e) :
    (clearAll s).errorLists n = s.errorLists n ∧
    getLastEvent c (clearAll s) n = Except.ok (some e) ∧
    getLastEvent c s n = Except.ok (some e) ∧
    getFullErrorHistory c (clearAll s) = Except.ok [] := by
  have h1 : (clearAll s).errorLists n = s.errorLists n := by
    rw [clearAll_errorLists, if_neg hmem]
  refine ⟨h1, ?_, ?_, ?_⟩
  · simp [getLastEvent, h1, hhead, hdec]
  · simp [getLastEvent, hhead, hdec]
  · rfl

/-- Witness for C10: `"b"` is marked failing (so it is the only member of
AlertsWithErrors) while `"a"` only received an `AddEvent`; `ClearAll`
erases the full-history view but the history of `"a"` survives. -/
theorem C10_witness :
    "a" ∉ sC10.alertsWithErrors ∧
    sC10.errorLists "a" = natCodec.marshal 5 :: [] ∧
    natCodec.unmarshal (natCodec.marshal 5) = some 5 ∧
    ((clearAll sC10).errorLists "a" = sC10.errorLists "a" ∧
      getLastEvent natCodec (clearAll sC10) "a" = Except.ok (some 5) ∧
      getLastEvent natCodec sC10 "a" = Except.ok (some 5) ∧
      getFullErrorHistory natCodec (clearAll sC10) = Except.ok []) :=
  ⟨by decide, by decide, by decide,
    C10_clearAll_skips_unlisted_history natCodec sC10 "a" 5 []
      (by decide) (by decide) (by decide)⟩

theorem readHistories_spec {E B : Type} (c : Codec E B) (g : String → List B) :
    ∀ (l : List String) (m : List (String × List E)),
      readHistories c g l = some m →
      m.map Prod.fst = l ∧ ∀ p ∈ m, decodeRows c (g p.1) = some p.2 := by
  intro l
  induction l with
  | nil =>
    intro m h
    simp only [readHistories, Option.some_inj] at h
    subst h
    simp
  | cons a t ih =>
    intro m h
    simp only [readHistories] at h
    cases hd : decodeRows c (g a) with
    | none => rw [hd] at h; cases h
    | some la =>
      rw [hd] at h
      cases hr : readHistories c g t with
      | none => rw [hr] at h; cases h
      | some res =>
        rw [hr] at h
        simp only [Option.some_inj] at h
        subst h
        obtain ⟨hk, hp⟩ := ih res hr
        refine ⟨by simp [hk], ?_⟩
        intro p hp2
        rcases List.mem_cons.mp hp2 with h1 | h2
        · subst h1; exact hd
        · exact hp p h2

theorem getFullErrorHistory_ok_spec {E B : Type} (c : Codec E B)
    (s : ErrState B) (m : List (String × List E))
    (h : getFullErrorHistory c s = Except.ok m) :
    m.map Prod.fst = s.alertsWithErrors ∧
    ∀ p ∈ m, decodeRows c (s.errorLists p.1) = some p.2 := by
  unfold getFullErrorHistory at h
  cases hr : readHistories c s.errorLists s.alertsWithErrors with
  | none => rw [hr] at h; cases h
  | some res =>
    rw [hr] at h
    simp only [Except.ok.injEq] at h
    subst h
    exact readHistories_spec c s.errorLists s.alertsWithErrors res hr

/-- C1 counterexample: from no prior state, three successful
`AddEvent("disk.full", ·)` calls record three history entries, yet
`GetFullErrorHistory()` returns the empty map — there is no entry for
`"disk.full"` at all, because `AddEvent` never adds the name to
AlertsWithErrors and `GetFullErrorHistory` enumerates only that set. -/
theorem C1_counterexample :
    ((addEvent natCodec (addEvent natCodec (addEvent natCodec ErrState.empty
        "disk.full" 10) "disk.full" 20) "disk.full" 30).errorLists
        "disk.full").length = 3 ∧
    getFullErrorHistory natCodec
      (addEvent natCodec (addEvent natCodec (addEvent natCodec ErrState.empty
        "disk.full" 10) "disk.full" 20) "disk.full" 30)
      = Except.ok [] := by
  exact ⟨by decide, rfl⟩

/-- C1 (amended): once `n` is a member of AlertsWithErrors — established
here by a prior `MarkAlertFailure(n)`, since `AddEvent` itself never adds
to that set — three successful `AddEvent` calls from no prior state make
`GetFullErrorHistory()` map `n` to `[e3, e2, e1]`, newest first.
Moreover `GetFullErrorHistory` builds any successful result by enumerating
AlertsWithErrors and, for each member, deserializing its entire per-alert
history in stored (newest-first) order. -/
theorem C1_full_history_newest_first {E B : Type} (c : Codec E B)
    (n : String) (e1 e2 e3 : E)
    (h1 : c.unmarshal (c.marshal e1) = some e1)
    (h2 : c.unmarshal (c.marshal e2) = some e2)
    (h3 : c.unmarshal (c.marshal e3) = some e3) :
    getFullErrorHistory c
      (addEvent c (addEvent c (addEvent c
        (markAlertFailure ErrState.empty n) n e1) n e2) n e3)
      = Except.ok [(n, [e3, e2, e1])] ∧
    (∀ (s : ErrState B) (m : List (String × List E)),
      getFullErrorHistory c s = Except.ok m →
      m.map Prod.fst = s.alertsWithErrors ∧
      ∀ p ∈ m, decodeRows c (s.errorLists p.1) = some p.2) := by
  constructor
  · simp [getFullErrorHistory, readHistories, decodeRows, addEvent,
      markAlertFailure, markAlertSuccess, sadd, ErrState.empty, h1, h2, h3]
  · intro s m h
    exact getFullErrorHistory_ok_spec c s m h

/-- Witness for the amended C1 theorem at concrete events. -/
theorem C1_witness :
    natCodec.unmarshal (natCodec.marshal 10) = some 10 ∧
    natCodec.unmarshal (natCodec.marshal 20) = some 20 ∧
    natCodec.unmarshal (natCodec.marshal 30) = some 30 ∧
    getFullErrorHistory natCodec
      (addEvent natCodec (addEvent natCodec (addEvent natCodec
        (markAlertFailure ErrState.empty "disk.full") "disk.full" 10)
        "disk.full" 20) "disk.full" 30)
      = Except.ok [("disk.full", [30, 20, 10])] :=
  ⟨by decide, by decide, by decide,
    (C1_full_history_newest_first natCodec "disk.full" 10 20 30
      (by decide) (by decide) (by decide)).1⟩

theorem mem_applyOp_awe {E B : Type} (c : Codec E B) (s : ErrState B)
    (n : String) (b : Bool) (hb : n ∈ s.alertsWithErrors ↔ b = true)
    (op : Op E) :
    (n ∈ (applyOp c s op).alertsWithErrors ↔ markedStep n b op = true) := by
  cases op with
  | markAlertSuccess m =>
    simpa [applyOp, markAlertSuccess, markedStep] using hb
  | markAlertFailure m =>
    by_cases h : m = n
    · subst h
      simp [applyOp, markAlertFailure, markedStep, mem_sadd]
    · simp only [applyOp, markAlertFailure, markedStep, mem_sadd, if_neg h]
      constructor
      · rintro (rfl | hn)
        · exact absurd rfl h
        · exact hb.mp hn
      · intro hbt
        exact Or.inr (hb.mpr hbt)
  | addEvent m ev =>
    simpa [applyOp, addEvent, markedStep] using hb
  | updateLastEvent m ev =>
    simpa [applyOp, updateLastEvent, markedStep] using hb
  | clearAlert m =>
    by_cases h : m = n
    · subst h
      simp [applyOp, clearAlert, markedStep, mem_srem]
    · simp only [applyOp, clearAlert, markedStep, mem_srem, if_neg h]
      constructor
      · rintro ⟨hn, _⟩
        exact hb.mp hn
      · intro hbt
        exact ⟨hb.mpr hbt, fun e => h e.symm⟩
  | clearAll =>
    simp [applyOp, clearAll_alertsWithErrors, markedStep]

theorem mem_run_awe {E B : Type} (c : Codec E B) (n : String) :
    ∀ (ops : List (Op E)) (s : ErrState B) (b : Bool),
      (n ∈ s.alertsWithErrors ↔ b = true) →
      (n ∈ (run c s ops).alertsWithErrors ↔
        ops.foldl (markedStep n) b = true) := by
  intro ops
  induction ops with
  | nil =>
    intro s b hb
    simpa [run] using hb
  | cons op rest ih =>
    intro s b hb
    simp only [run, List.foldl_cons] at *
    exact ih (applyOp c s op) (markedStep n b op) (mem_applyOp_awe c s n b hb op)

/-- C2 counterexample: starting from no prior state, a completed
`AddEvent("disk.full", e)` writes `PerAlertHistory("disk.full")` (it is now
nonempty), yet `"disk.full"` is not a member of AlertsWithErrors — the
claimed equivalence, and in particular the claim that the first `AddEvent`
establishes membership, fails: only `MarkAlertFailure` writes that set. -/
theorem C2_counterexample :
    (addEvent natCodec ErrState.empty "disk.full" 10).errorLists "disk.full"
      = [natCodec.marshal 10] ∧
    "disk.full" ∉ (addEvent natCodec ErrState.empty "disk.full" 10).alertsWithErrors := by
  exact ⟨by decide, by decide⟩

/-- C2 (amended): for every sequence of completed operations from the empty
store, `n ∈ AlertsWithErrors` holds if and only if some
`MarkAlertFailure(n)` occurs in the sequence with no later `ClearAlert(n)`
or `ClearAll()`.  The first `AddEvent(n, e)` does create the history record
(`PerAlertHistory(n)` becomes nonempty) but never touches
AlertsWithErrors. -/
theorem C2_membership_iff_marked_since_clear {E B : Type} (c : Codec E B)
    (n : String) (ops : List (Op E)) :
    (n ∈ (run c ErrState.empty ops).alertsWithErrors ↔
      markedSinceClear n ops = true) ∧
    (∀ (s : ErrState B) (ev : E),
      (addEvent c s n ev).errorLists n = c.marshal ev :: s.errorLists n ∧
      (addEvent c s n ev).alertsWithErrors = s.alertsWithErrors) := by
  constructor
  · exact mem_run_awe c n ops ErrState.empty false (by simp [ErrState.empty])
  · intro s ev
    exact ⟨by simp [addEvent], rfl⟩

/-- Witness for the amended C2 theorem at a concrete trace: mark, add, clear,
mark again. -/
theorem C2_witness :
    ("x" ∈ (run natCodec ErrState.empty
        [Op.markAlertFailure "x", Op.addEvent "x" 1, Op.clearAlert "x",
         Op.markAlertFailure "x"]).alertsWithErrors ↔
      markedSinceClear "x"
        [Op.markAlertFailure "x", Op.addEvent "x" 1, Op.clearAlert "x",
         Op.markAlertFailure "x"] = true) ∧
    (∀ (s : ErrState Nat) (ev : Nat),
      (addEvent natCodec s "x" ev).errorLists "x"
        = natCodec.marshal ev :: s.errorLists "x" ∧
      (addEvent natCodec s "x" ev).alertsWithErrors = s.alertsWithErrors) :=
  C2_membership_iff_marked_since_clear natCodec "x"
    [Op.markAlertFailure "x", Op.addEvent "x" 1, Op.clearAlert "x",
     Op.markAlertFailure "x"]

theorem subset_applyOp {E B : Type} (c : Codec E B) (s : ErrState B)
    (op : Op E)
    (h : ∀ m, m ∈ s.failingAlerts → m ∈ s.alertsWithErrors) :
    ∀ m, m ∈ (applyOp c s op).failingAlerts →
      m ∈ (applyOp c s op).alertsWithErrors := by
  cases op with
  | markAlertSuccess a =>
    intro m hm
    simp only [applyOp, markAlertSuccess] at *
    exact h m (mem_srem.mp hm).1
  | markAlertFailure a =>
    intro m hm
    simp only [applyOp, markAlertFailure] at *
    rcases mem_sadd.mp hm with rfl | hm2
    · exact mem_sadd.mpr (Or.inl rfl)
    · exact mem_sadd.mpr (Or.inr (h m hm2))
  | addEvent a ev =>
    intro m hm
    simp only [applyOp, addEvent] at *
    exact h m hm
  | updateLastEvent a ev =>
    intro m hm
    simp only [applyOp, updateLastEvent] at *
    exact h m hm
  | clearAlert a =>
    intro m hm
    simp only [applyOp, clearAlert] at *
    obtain ⟨hm1, hm2⟩ := mem_srem.mp hm
    exact mem_srem.mpr ⟨h m hm1, hm2⟩
  | clearAll =>
    intro m hm
    simp only [applyOp, clearAll] at hm
    cases hm

theorem subset_run {E B : Type} (c : Codec E B) :
    ∀ (ops : List (Op E)) (s : ErrState B),
      (∀ m, m ∈ s.failingAlerts → m ∈ s.alertsWithErrors) →
      ∀ m, m ∈ (run c s ops).failingAlerts →
        m ∈ (run c s ops).alertsWithErrors := by
  intro ops
  induction ops with
  | nil =>
    intro s h
    simpa [run] using h
  | cons op rest ih =>
    intro s h
    simp only [run, List.foldl_cons] at *
    exact ih (applyOp c s op) (subset_applyOp c s op h)

/-- C3: in every state reachable from the empty store by completed
operations, FailingAlerts is a subset of AlertsWithErrors.
`MarkAlertFailure` establishes it by writing AlertsWithErrors before
FailingAlerts — even its partial execution, where the second `SADD` fails,
preserves the subset — and `MarkAlertSuccess`, `ClearAlert` and `ClearAll`
preserve it. -/
theorem C3_failing_subset_alertsWithErrors {E B : Type} (c : Codec E B)
    (ops : List (Op E)) (n : String)
    (h : n ∈ (run c ErrState.empty ops).failingAlerts) :
    n ∈ (run c ErrState.empty ops).alertsWithErrors ∧
    (∀ (s : ErrState B) (a : String) (f2 : Bool),
      (∀ m, m ∈ s.failingAlerts → m ∈ s.alertsWithErrors) →
      ∀ m, m ∈ (markAlertFailureWith s a false f2).2.failingAlerts →
        m ∈ (markAlertFailureWith s a false f2).2.alertsWithErrors) := by
  constructor
  · exact subset_run c ops ErrState.empty (by intro m hm; cases hm) n h
  · intro s a f2 hs m hm
    cases f2 with
    | true =>
      simp only [markAlertFailureWith, Bool.false_eq_true, if_false, if_true] at *
      exact mem_sadd.mpr (Or.inr (hs m hm))
    | false =>
      simp only [markAlertFailureWith, Bool.false_eq_true, if_false] at *
      rcases mem_sadd.mp hm with rfl | hm2
      · exact mem_sadd.mpr (Or.inl rfl)
      · exact mem_sadd.mpr (Or.inr (hs m hm2))

/-- Witness for C3 at a concrete trace that puts `"a"` in FailingAlerts. -/
theorem C3_witness :
    ("a" ∈ (run natCodec ErrState.empty
        [Op.markAlertFailure "a", Op.addEvent "a" 1]).failingAlerts) ∧
    "a" ∈ (run natCodec ErrState.empty
        [Op.markAlertFailure "a", Op.addEvent "a" 1]).alertsWithErrors :=
  ⟨by decide,
    (C3_failing_subset_alertsWithErrors natCodec
      [Op.markAlertFailure "a", Op.addEvent "a" 1] "a" (by decide)).1⟩

end ErrorData
